import Mathlib

/-!
Verification of the inventory and receipt core of the Supermarket and
Inventory Management program (src/main.cpp).

The C++ `Inventory` stores a `std::map<int, Product>`; we embed it as a
list of products kept sorted by strictly ascending `id` (the map's
iteration order), with the map operations translated into recursive
functions on that list.  Machine `int` becomes `Int` and `double` prices
become `ℚ`.  Console warnings emitted by `sellProduct` become an
`Option StockNote` component of its result, and the timestamp produced
by `TimeTools::now_timestamp` becomes a `String` parameter of the export
functions.
-/

/-- The `Product` record of the source: id, name, quantity, price. -/
structure Product where
  id : Int
  name : String
  quantity : Int
  price : ℚ
deriving DecidableEq

/-- `Product::toFileString`: space separated positional fields. -/
def Product.toFileString (p : Product) : String :=
  toString p.id ++ " " ++ p.name ++ " " ++ toString p.quantity ++ " " ++ toString p.price

/-- The `std::map<int, Product>` of `Inventory`, as its ascending-id entry list. -/
abbrev Inventory := List Product

/-- Lookup by id, as `std::map::find` / `operator[]` on an existing key. -/
def findById (id : Int) : List Product → Option Product
  | [] => none
  | q :: rest => if q.id = id then some q else findById id rest

/-- `products.count(id)` viewed as a boolean key-presence test. -/
def containsId (inv : Inventory) (id : Int) : Bool :=
  (findById id inv).isSome

/-- `products[p.id] = p` on the sorted entry list: insert keeping ascending order,
overwriting an existing entry with the same key. -/
def insertSorted (p : Product) : List Product → List Product
  | [] => [p]
  | q :: rest =>
      if p.id < q.id then p :: q :: rest
      else if p.id = q.id then p :: rest
      else q :: insertSorted p rest

/-- `products.erase(id)` on the entry list. -/
def eraseById (id : Int) : List Product → List Product
  | [] => []
  | q :: rest => if q.id = id then rest else q :: eraseById id rest

/-- In-place mutation of the entry with key `id` through a reference,
as in `products[id].quantity += amount`. -/
def updateById (id : Int) (f : Product → Product) : List Product → List Product
  | [] => []
  | q :: rest => if q.id = id then f q :: rest else q :: updateById id f rest

/-- `Inventory::insertProduct`: reject a duplicate id, reject quantity above 100,
otherwise store the product.  The returned pair is (success flag, new state). -/
def Inventory.insertProduct (inv : Inventory) (p : Product) : Bool × Inventory :=
  if containsId inv p.id then (false, inv)
  else if p.quantity > 100 then (false, inv)
  else (true, insertSorted p inv)

/-- `Inventory::deleteProduct`: erase the entry if present. -/
def Inventory.deleteProduct (inv : Inventory) (id : Int) : Bool × Inventory :=
  if containsId inv id then (true, eraseById id inv)
  else (false, inv)

/-- `Inventory::restockProduct`: not-found check, then the `quantity + amount > 100`
guard, then the increment. -/
def Inventory.restockProduct (inv : Inventory) (id amount : Int) : Bool × Inventory :=
  match findById id inv with
  | none => (false, inv)
  | some prod =>
      if prod.quantity + amount > 100 then (false, inv)
      else (true, updateById id (fun q => { q with quantity := q.quantity + amount }) inv)

/-- The three stock-level warnings printed after a sale. -/
inductive StockNote where
  | empty
  | low
  | full
deriving DecidableEq

/-- Result of `Inventory::sellProduct`: the returned flag, the mutated map, the
`outTaken` snapshot, and the stock-level warning printed (if any). -/
structure SellResult where
  ok : Bool
  inv : Inventory
  taken : Option Product
  note : Option StockNote
deriving DecidableEq

/-- `Inventory::sellProduct`: not-found check, insufficient-stock check
(`prod.quantity < amount`), then `prod.quantity -= amount`, the snapshot
`outTaken = prod; outTaken.quantity = amount`, and the warning chain on the
decremented quantity (`== 0` EMPTY, `< 20` LOW, `== 100` FULL). -/
def Inventory.sellProduct (inv : Inventory) (id amount : Int) : SellResult :=
  match findById id inv with
  | none => ⟨false, inv, none, none⟩
  | some prod =>
      if prod.quantity < amount then ⟨false, inv, none, none⟩
      else
        ⟨true,
         updateById id (fun q => { q with quantity := q.quantity - amount }) inv,
         some { prod with quantity := amount },
         if prod.quantity - amount = 0 then some StockNote.empty
         else if prod.quantity - amount < 20 then some StockNote.low
         else if prod.quantity - amount = 100 then some StockNote.full
         else none⟩

/-- The product-line loop of `Inventory::getFileContent`:
each product contributes `toFileString` followed by a newline. -/
def productLines : List Product → String
  | [] => ""
  | p :: rest => p.toFileString ++ "\n" ++ productLines rest

/-- `Inventory::getFileContent`: header, timestamp line followed by a second
newline, then the product lines.  `ts` stands for `TimeTools::now_timestamp()`. -/
def Inventory.getFileContent (inv : Inventory) (ts : String) : String :=
  "=== INVENTORY EXPORT ===\n" ++ ("Timestamp: " ++ ts ++ "\n\n") ++ productLines inv

/-- The `Reciept` class (source spelling): the sold-item list and the running total. -/
structure Reciept where
  soldItems : List Product
  total : ℚ
deriving DecidableEq

/-- `Reciept::addItem`: push a product carrying name, quantity and price
(id left default-initialised to 0) and add `price * qty` to the total. -/
def Reciept.addItem (r : Reciept) (name : String) (qty : Int) (price : ℚ) : Reciept :=
  { soldItems := r.soldItems ++ [{ id := 0, name := name, quantity := qty, price := price }],
    total := r.total + price * qty }

/-- `Reciept::clear`. -/
def Reciept.clear (_ : Reciept) : Reciept :=
  { soldItems := [], total := 0 }

/-- `Reciept::isEmpty`. -/
def Reciept.isEmpty (r : Reciept) : Bool :=
  r.soldItems.isEmpty

/-- The per-line total `p.quantity * p.price` printed by `Reciept::getFileContent`. -/
def lineTotal (p : Product) : ℚ :=
  (p.quantity : ℚ) * p.price

/-- The list of per-line totals printed by the receipt export. -/
def Reciept.lineTotals (r : Reciept) : List ℚ :=
  r.soldItems.map lineTotal

/-- The item-line loop of `Reciept::getFileContent`. -/
def receiptLines : List Product → String
  | [] => ""
  | p :: rest =>
      p.name ++ " x" ++ toString p.quantity ++ " @ " ++ toString p.price
        ++ " = " ++ toString (lineTotal p) ++ "\n" ++ receiptLines rest

/-- `Reciept::getFileContent`: header, timestamp, separator, item lines,
separator, total line, footer. -/
def Reciept.getFileContent (r : Reciept) (ts : String) : String :=
  "===== RECEIPT =====\n" ++ ("Timestamp: " ++ ts ++ "\n") ++ "-------------------\n"
    ++ receiptLines r.soldItems
    ++ "-------------------\n" ++ ("Total: " ++ toString r.total ++ "\n")
    ++ "===================\n"

/-- One inventory-mutating call, for reasoning about call sequences. -/
inductive InvOp where
  | insert (p : Product)
  | delete (id : Int)
  | restock (id amount : Int)
  | sell (id amount : Int)

/-- The state change performed by one call (return values discarded). -/
def applyOp (inv : Inventory) : InvOp → Inventory
  | .insert p => (inv.insertProduct p).2
  | .delete id => (inv.deleteProduct id).2
  | .restock id amount => (inv.restockProduct id amount).2
  | .sell id amount => (inv.sellProduct id amount).inv

/-- Run a sequence of inventory calls from a starting state. -/
def runOps (inv : Inventory) (ops : List InvOp) : Inventory :=
  ops.foldl applyOp inv

/-- The non-negative-argument side condition of the quantity-range claim:
inserted quantities and restock/sell amounts are non-negative. -/
def InvOp.nonneg : InvOp → Bool
  | .insert p => decide (0 ≤ p.quantity)
  | .delete _ => true
  | .restock _ amount => decide (0 ≤ amount)
  | .sell _ amount => decide (0 ≤ amount)

/-- Every stored product has its quantity in the closed interval [0, 100]. -/
def quantityInRange (inv : Inventory) : Prop :=
  ∀ p ∈ inv, 0 ≤ p.quantity ∧ p.quantity ≤ 100

/-- The entry list is sorted by strictly ascending id (the `std::map` invariant). -/
def invSorted (inv : Inventory) : Prop :=
  List.Pairwise (fun a b : Product => a.id < b.id) inv

/-- One receipt-mutating call. -/
inductive RecOp where
  | add (name : String) (qty : Int) (price : ℚ)
  | clear

/-- The state change performed by one receipt call. -/
def applyRecOp (r : Reciept) : RecOp → Reciept
  | .add name qty price => r.addItem name qty price
  | .clear => r.clear

/-- Run a sequence of receipt calls from the initial empty receipt. -/
def runRecOps (ops : List RecOp) : Reciept :=
  ops.foldl applyRecOp { soldItems := [], total := 0 }

/-- A list of strings rendered as newline-terminated lines of a text document. -/
def linesJoin : List String → String
  | [] => ""
  | s :: rest => s ++ "\n" ++ linesJoin rest

/-! ### Helper lemmas about the entry-list operations -/

theorem mem_insertSorted {x p : Product} {l : List Product}
    (h : x ∈ insertSorted p l) : x = p ∨ x ∈ l := by
  induction l with
  | nil => simpa [insertSorted] using h
  | cons q rest ih =>
      simp only [insertSorted] at h
      split_ifs at h with h1 h2
      · rcases List.mem_cons.mp h with h3 | h3
        · exact Or.inl h3
        · exact Or.inr h3
      · rcases List.mem_cons.mp h with h3 | h3
        · exact Or.inl h3
        · exact Or.inr (List.mem_cons_of_mem q h3)
      · rcases List.mem_cons.mp h with h3 | h3
        · exact Or.inr (by simp [h3])
        · rcases ih h3 with h4 | h4
          · exact Or.inl h4
          · exact Or.inr (List.mem_cons_of_mem q h4)

theorem findById_insertSorted_self (p : Product) (l : List Product) :
    findById p.id (insertSorted p l) = some p := by
  induction l with
  | nil => simp [insertSorted, findById]
  | cons q rest ih =>
      simp only [insertSorted]
      split_ifs with h1 h2
      · simp [findById]
      · simp [findById]
      · have hq : ¬ q.id = p.id := by omega
        simp [findById, hq, ih]

theorem mem_of_findById {id : Int} {prod : Product} {l : List Product}
    (h : findById id l = some prod) : prod ∈ l ∧ prod.id = id := by
  induction l with
  | nil => simp [findById] at h
  | cons q rest ih =>
      simp only [findById] at h
      split_ifs at h with h1
      · cases h
        exact ⟨List.mem_cons_self _ _, h1⟩
      · rcases ih h with ⟨h2, h3⟩
        exact ⟨List.mem_cons_of_mem q h2, h3⟩

theorem findById_updateById {id : Int} {f : Product → Product}
    (hf : ∀ q, (f q).id = q.id) (l : List Product) :
    findById id (updateById id f l) = (findById id l).map f := by
  induction l with
  | nil => simp [findById, updateById]
  | cons q rest ih =>
      simp only [updateById]
      split_ifs with h1
      · simp [findById, hf, h1]
      · simp [findById, h1, ih]

theorem updateById_of_findById {id : Int} {prod : Product} {l : List Product}
    (h : findById id l = some prod) (f : Product → Product) :
    ∀ x ∈ updateById id f l, x ∈ l ∨ x = f prod := by
  induction l with
  | nil => simp [updateById]
  | cons q rest ih =>
      simp only [findById] at h
      simp only [updateById]
      split_ifs at h ⊢ with h1
      · cases h
        intro x hx
        rcases List.mem_cons.mp hx with h2 | h2
        · exact Or.inr h2
        · exact Or.inl (List.mem_cons_of_mem _ h2)
      · intro x hx
        rcases List.mem_cons.mp hx with h2 | h2
        · exact Or.inl (by simp [h2])
        · rcases ih h x h2 with h3 | h3
          · exact Or.inl (List.mem_cons_of_mem q h3)
          · exact Or.inr h3

theorem eraseById_sublist (id : Int) (l : List Product) :
    List.Sublist (eraseById id l) l := by
  induction l with
  | nil => simp [eraseById]
  | cons q rest ih =>
      simp only [eraseById]
      split_ifs with h1
      · exact List.sublist_cons_self q rest
      · exact List.Sublist.cons₂ q ih

theorem mem_eraseById {x : Product} {id : Int} {l : List Product}
    (h : x ∈ eraseById id l) : x ∈ l :=
  (eraseById_sublist id l).subset h

theorem mem_updateById {x : Product} {id : Int} {f : Product → Product}
    {l : List Product} (h : x ∈ updateById id f l) : x ∈ l ∨ ∃ y ∈ l, x = f y := by
  induction l with
  | nil => simp [updateById] at h
  | cons q rest ih =>
      simp only [updateById] at h
      split_ifs at h with h1
      · rcases List.mem_cons.mp h with h2 | h2
        · exact Or.inr ⟨q, List.mem_cons_self q rest, h2⟩
        · exact Or.inl (List.mem_cons_of_mem q h2)
      · rcases List.mem_cons.mp h with h2 | h2
        · exact Or.inl (by simp [h2])
        · rcases ih h2 with h3 | h3
          · exact Or.inl (List.mem_cons_of_mem q h3)
          · rcases h3 with ⟨y, hy, h4⟩
            exact Or.inr ⟨y, List.mem_cons_of_mem q hy, h4⟩

theorem eraseById_insertSorted {p : Product} {l : List Product}
    (h : containsId l p.id = false) : eraseById p.id (insertSorted p l) = l := by
  induction l with
  | nil => simp [insertSorted, eraseById]
  | cons q rest ih =>
      have hq : ¬ q.id = p.id := by
        intro hqe
        simp [containsId, findById, hqe] at h
      have hrest : containsId rest p.id = false := by
        simpa [containsId, findById, hq] using h
      simp only [insertSorted]
      split_ifs with h1 h2
      · simp [eraseById]
      · exact absurd h2.symm hq
      · simp [eraseById, hq, ih hrest]

/-! ### Sortedness of the entry list is preserved by every operation -/

theorem pairwise_insertSorted {p : Product} {l : List Product}
    (h : List.Pairwise (fun a b : Product => a.id < b.id) l) :
    List.Pairwise (fun a b : Product => a.id < b.id) (insertSorted p l) := by
  induction l with
  | nil => simp [insertSorted]
  | cons q rest ih =>
      rw [List.pairwise_cons] at h
      simp only [insertSorted]
      split_ifs with h1 h2
      · refine List.Pairwise.cons ?_ (List.Pairwise.cons h.1 h.2)
        intro b hb
        rcases List.mem_cons.mp hb with h3 | h3
        · rw [h3]; exact h1
        · exact lt_trans h1 (h.1 b h3)
      · refine List.Pairwise.cons ?_ h.2
        intro b hb
        rw [h2]
        exact h.1 b hb
      · refine List.Pairwise.cons ?_ (ih h.2)
        intro b hb
        rcases mem_insertSorted hb with h3 | h3
        · rw [h3]; omega
        · exact h.1 b h3

theorem pairwise_updateById {id : Int} {f : Product → Product}
    (hf : ∀ q, (f q).id = q.id) {l : List Product}
    (h : List.Pairwise (fun a b : Product => a.id < b.id) l) :
    List.Pairwise (fun a b : Product => a.id < b.id) (updateById id f l) := by
  induction l with
  | nil => simp [updateById]
  | cons q rest ih =>
      rw [List.pairwise_cons] at h
      simp only [updateById]
      split_ifs with h1
      · refine List.Pairwise.cons ?_ h.2
        intro b hb
        rw [hf q]
        exact h.1 b hb
      · refine List.Pairwise.cons ?_ (ih h.2)
        intro b hb
        rcases mem_updateById hb with h2 | h2
        · exact h.1 b h2
        · rcases h2 with ⟨y, hy, h3⟩
          rw [h3, hf y]
          exact h.1 y hy

theorem applyOp_preserves_sorted {inv : Inventory} (op : InvOp)
    (h : invSorted inv) : invSorted (applyOp inv op) := by
  cases op with
  | insert p =>
      simp only [applyOp, Inventory.insertProduct]
      split_ifs
      · exact h
      · exact h
      · exact pairwise_insertSorted h
  | delete id =>
      simp only [applyOp, Inventory.deleteProduct]
      split_ifs
      · exact List.Pairwise.sublist (eraseById_sublist id inv) h
      · exact h
  | restock id amount =>
      simp only [applyOp, Inventory.restockProduct]
      cases findById id inv with
      | none => exact h
      | some prod =>
          by_cases h1 : prod.quantity + amount > 100
          · simp only [if_pos h1]
            exact h
          · simp only [if_neg h1]
            exact pairwise_updateById
              (f := fun q => { q with quantity := q.quantity + amount }) (fun q => rfl) h
  | sell id amount =>
      simp only [applyOp, Inventory.sellProduct]
      cases findById id inv with
      | none => exact h
      | some prod =>
          by_cases h1 : prod.quantity < amount
          · simp only [if_pos h1]
            exact h
          · simp only [if_neg h1]
            exact pairwise_updateById
              (f := fun q => { q with quantity := q.quantity - amount }) (fun q => rfl) h

theorem runOps_sorted_aux (ops : List InvOp) :
    ∀ inv : Inventory, invSorted inv → invSorted (runOps inv ops) := by
  induction ops with
  | nil => intro inv h; exact h
  | cons op rest ih =>
      intro inv h
      exact ih (applyOp inv op) (applyOp_preserves_sorted op h)

theorem runOps_sorted (ops : List InvOp) : invSorted (runOps [] ops) :=
  runOps_sorted_aux ops [] (List.Pairwise.nil)

/-! ### The quantity-range invariant -/

theorem applyOp_preserves_range {inv : Inventory} {op : InvOp}
    (hinv : quantityInRange inv) (hop : op.nonneg = true) :
    quantityInRange (applyOp inv op) := by
  cases op with
  | insert p =>
      simp only [InvOp.nonneg, decide_eq_true_eq] at hop
      simp only [applyOp, Inventory.insertProduct]
      split_ifs with h1 h2
      · exact hinv
      · exact hinv
      · intro x hx
        rcases mem_insertSorted hx with h3 | h3
        · rw [h3]; exact ⟨hop, by omega⟩
        · exact hinv x h3
  | delete id =>
      simp only [applyOp, Inventory.deleteProduct]
      split_ifs
      · intro x hx
        exact hinv x (mem_eraseById hx)
      · exact hinv
  | restock id amount =>
      simp only [InvOp.nonneg, decide_eq_true_eq] at hop
      simp only [applyOp, Inventory.restockProduct]
      cases hf : findById id inv with
      | none => exact hinv
      | some prod =>
          by_cases h1 : prod.quantity + amount > 100
          · simp only [if_pos h1]
            exact hinv
          · simp only [if_neg h1]
            intro x hx
            rcases updateById_of_findById hf _ x hx with h2 | h2
            · exact hinv x h2
            · rw [h2]
              have h3 := hinv prod (mem_of_findById hf).1
              refine ⟨?_, ?_⟩ <;> simp <;> omega
  | sell id amount =>
      simp only [InvOp.nonneg, decide_eq_true_eq] at hop
      simp only [applyOp, Inventory.sellProduct]
      cases hf : findById id inv with
      | none => exact hinv
      | some prod =>
          by_cases h1 : prod.quantity < amount
          · simp only [if_pos h1]
            exact hinv
          · simp only [if_neg h1]
            intro x hx
            rcases updateById_of_findById hf _ x hx with h2 | h2
            · exact hinv x h2
            · rw [h2]
              have h3 := hinv prod (mem_of_findById hf).1
              refine ⟨?_, ?_⟩ <;> simp <;> omega

theorem runOps_preserves_range (ops : List InvOp) :
    ∀ inv : Inventory, quantityInRange inv → (∀ op ∈ ops, op.nonneg = true) →
      quantityInRange (runOps inv ops) := by
  induction ops with
  | nil => intro inv h _; exact h
  | cons op rest ih =>
      intro inv h hops
      exact ih (applyOp inv op)
        (applyOp_preserves_range h (hops op (List.mem_cons_self _ _)))
        (fun o ho => hops o (List.mem_cons_of_mem _ ho))

/-! ### Receipt running-total invariant -/

theorem applyRecOp_total {r : Reciept} (op : RecOp)
    (h : r.total = (r.soldItems.map lineTotal).sum) :
    (applyRecOp r op).total = ((applyRecOp r op).soldItems.map lineTotal).sum := by
  cases op with
  | add name qty price =>
      simp only [applyRecOp, Reciept.addItem, List.map_append, List.sum_append,
        List.map_cons, List.map_nil, List.sum_cons, List.sum_nil, lineTotal]
      rw [h]
      ring
  | clear =>
      simp [applyRecOp, Reciept.clear]

theorem runRecOps_total_aux (ops : List RecOp) :
    ∀ r : Reciept, r.total = (r.soldItems.map lineTotal).sum →
      (ops.foldl applyRecOp r).total = ((ops.foldl applyRecOp r).soldItems.map lineTotal).sum := by
  induction ops with
  | nil => intro r h; exact h
  | cons op rest ih =>
      intro r h
      exact ih (applyRecOp r op) (applyRecOp_total op h)

/-! ### Shape of the inventory export document -/

theorem productLines_linesJoin (l : List Product) :
    productLines l = linesJoin (l.map Product.toFileString) := by
  induction l with
  | nil => simp [productLines, linesJoin]
  | cons p rest ih =>
      simp only [productLines, List.map_cons, linesJoin, ih, String.append_assoc]

theorem getFileContent_linesJoin (inv : Inventory) (ts : String) :
    inv.getFileContent ts
      = linesJoin ("=== INVENTORY EXPORT ===" :: ("Timestamp: " ++ ts) :: "" :: inv.map Product.toFileString) := by
  simp only [Inventory.getFileContent, linesJoin, productLines_linesJoin]
  have h1 : ("=== INVENTORY EXPORT ===\n" : String) = "=== INVENTORY EXPORT ===" ++ "\n" := rfl
  have h2 : ("\n\n" : String) = "\n" ++ "\n" := rfl
  have h3 : ∀ s : String, "" ++ s = s := by
    intro s
    cases s
    rfl
  rw [h1, h2, h3]
  simp only [String.append_assoc]

/-! ### Claims -/

/-- Claim C1: for every inventory containing a product with the given id whose
stored quantity is at least `amount`, `sellProduct id amount` succeeds, the
returned snapshot has quantity exactly `amount` with id, name and price of the
stored product before the sale, and the stored quantity decreases by `amount`. -/
theorem sellProduct_success_spec (inv : Inventory) (id amount : Int) (prod : Product)
    (hfind : findById id inv = some prod) (hle : amount ≤ prod.quantity) :
    (inv.sellProduct id amount).ok = true
    ∧ (inv.sellProduct id amount).taken = some { prod with quantity := amount }
    ∧ findById id (inv.sellProduct id amount).inv
        = some { prod with quantity := prod.quantity - amount } := by
  simp only [Inventory.sellProduct, hfind]
  rw [if_neg (by omega)]
  refine ⟨rfl, rfl, ?_⟩
  show findById id (updateById id (fun q => { q with quantity := q.quantity - amount }) inv)
      = some { prod with quantity := prod.quantity - amount }
  rw [findById_updateById (f := fun q => { q with quantity := q.quantity - amount })
    (fun q => rfl), hfind]
  rfl

theorem sellProduct_success_spec_witness :
    (Inventory.sellProduct [⟨1, "Milk", 50, 3⟩] 1 40).ok = true
    ∧ (Inventory.sellProduct [⟨1, "Milk", 50, 3⟩] 1 40).taken = some ⟨1, "Milk", 40, 3⟩
    ∧ findById 1 (Inventory.sellProduct [⟨1, "Milk", 50, 3⟩] 1 40).inv
        = some ⟨1, "Milk", 10, 3⟩ :=
  sellProduct_success_spec [⟨1, "Milk", 50, 3⟩] 1 40 ⟨1, "Milk", 50, 3⟩ (by decide) (by decide)

/-- Claim C10: with a stored non-negative quantity and a negative amount,
`sellProduct` succeeds (the insufficient-stock check never fires), the stored
quantity strictly increases to quantity - amount, and the snapshot's quantity
field is the negative amount. -/
theorem sellProduct_negative_amount (inv : Inventory) (id amount : Int) (prod : Product)
    (hfind : findById id inv = some prod) (hq : 0 ≤ prod.quantity) (hamt : amount < 0) :
    (inv.sellProduct id amount).ok = true
    ∧ findById id (inv.sellProduct id amount).inv
        = some { prod with quantity := prod.quantity - amount }
    ∧ prod.quantity < prod.quantity - amount
    ∧ (inv.sellProduct id amount).taken = some { prod with quantity := amount } := by
  simp only [Inventory.sellProduct, hfind]
  rw [if_neg (by omega)]
  refine ⟨rfl, ?_, by omega, rfl⟩
  show findById id (updateById id (fun q => { q with quantity := q.quantity - amount }) inv)
      = some { prod with quantity := prod.quantity - amount }
  rw [findById_updateById (f := fun q => { q with quantity := q.quantity - amount })
    (fun q => rfl), hfind]
  rfl

theorem sellProduct_negative_amount_witness :
    (Inventory.sellProduct [⟨1, "Soap", 50, 2⟩] 1 (-60)).ok = true
    ∧ findById 1 (Inventory.sellProduct [⟨1, "Soap", 50, 2⟩] 1 (-60)).inv
        = some ⟨1, "Soap", 110, 2⟩
    ∧ (50 : Int) < 110
    ∧ (Inventory.sellProduct [⟨1, "Soap", 50, 2⟩] 1 (-60)).taken = some ⟨1, "Soap", -60, 2⟩ :=
  sellProduct_negative_amount [⟨1, "Soap", 50, 2⟩] 1 (-60) ⟨1, "Soap", 50, 2⟩
    (by decide) (by decide) (by decide)

/-- Claim C2: along any sequence of inventory calls in which every inserted
product has non-negative quantity and every restock and sell amount is
non-negative, every stored quantity stays in [0, 100] at every step. -/
theorem quantity_always_in_range (ops : List InvOp)
    (h : ∀ op ∈ ops, op.nonneg = true) (n : ℕ) :
    quantityInRange (runOps [] (ops.take n)) :=
  runOps_preserves_range (ops.take n) [] (by intro p hp; simp at hp)
    (fun op ho => h op (List.take_subset n ops ho))

theorem quantity_always_in_range_witness :
    (∀ op ∈ [InvOp.insert ⟨1, "Milk", 50, 3⟩, InvOp.sell 1 40, InvOp.restock 1 60],
      op.nonneg = true)
    ∧ quantityInRange
        (runOps [] ([InvOp.insert ⟨1, "Milk", 50, 3⟩, InvOp.sell 1 40, InvOp.restock 1 60].take 3)) :=
  ⟨by decide, quantity_always_in_range
    [InvOp.insert ⟨1, "Milk", 50, 3⟩, InvOp.sell 1 40, InvOp.restock 1 60] (by decide) 3⟩

/-- Claim C4: `insertProduct p` fails when `p.id` is already present, fails when
`p.quantity > 100`, and otherwise (negative quantities included) stores `p`
under `p.id` and succeeds. -/
theorem insertProduct_spec (inv : Inventory) (p : Product) :
    (containsId inv p.id = true → (inv.insertProduct p).1 = false)
    ∧ (p.quantity > 100 → (inv.insertProduct p).1 = false)
    ∧ (containsId inv p.id = false → p.quantity ≤ 100 →
        (inv.insertProduct p).1 = true
        ∧ findById p.id (inv.insertProduct p).2 = some p) := by
  refine ⟨?_, ?_, ?_⟩
  · intro h
    simp [Inventory.insertProduct, h]
  · intro h
    simp only [Inventory.insertProduct]
    split_ifs
    · rfl
    · rfl
  · intro h1 h2
    simp only [Inventory.insertProduct, h1, Bool.false_eq_true, if_false]
    rw [if_neg (by omega)]
    exact ⟨rfl, findById_insertSorted_self p inv⟩

theorem insertProduct_spec_witness :
    (Inventory.insertProduct [] ⟨1, "Candy", -5, 2⟩).1 = true
    ∧ findById 1 (Inventory.insertProduct [] ⟨1, "Candy", -5, 2⟩).2 = some ⟨1, "Candy", -5, 2⟩ :=
  (insertProduct_spec [] ⟨1, "Candy", -5, 2⟩).2.2 (by decide) (by decide)

/-- Claim C5: `restockProduct id amount` fails when the id is absent, fails when
the stored quantity plus `amount` exceeds 100, and otherwise adds `amount` to
the stored quantity and succeeds — also for negative `amount`, with no guard
against the quantity becoming negative. -/
theorem restockProduct_spec (inv : Inventory) (id amount : Int) :
    (findById id inv = none → (inv.restockProduct id amount).1 = false)
    ∧ (∀ prod, findById id inv = some prod → prod.quantity + amount > 100 →
        (inv.restockProduct id amount).1 = false)
    ∧ (∀ prod, findById id inv = some prod → prod.quantity + amount ≤ 100 →
        (inv.restockProduct id amount).1 = true
        ∧ findById id (inv.restockProduct id amount).2
            = some { prod with quantity := prod.quantity + amount }) := by
  refine ⟨?_, ?_, ?_⟩
  · intro h
    simp [Inventory.restockProduct, h]
  · intro prod h1 h2
    simp [Inventory.restockProduct, h1, h2]
  · intro prod h1 h2
    simp only [Inventory.restockProduct, h1]
    rw [if_neg (by omega)]
    refine ⟨rfl, ?_⟩
    show findById id (updateById id (fun q => { q with quantity := q.quantity + amount }) inv)
        = some { prod with quantity := prod.quantity + amount }
    rw [findById_updateById (f := fun q => { q with quantity := q.quantity + amount })
      (fun q => rfl), h1]
    rfl

theorem restockProduct_spec_witness :
    (Inventory.restockProduct [⟨1, "Rice", 5, 2⟩] 1 (-10)).1 = true
    ∧ findById 1 (Inventory.restockProduct [⟨1, "Rice", 5, 2⟩] 1 (-10)).2
        = some ⟨1, "Rice", -5, 2⟩ :=
  (restockProduct_spec [⟨1, "Rice", 5, 2⟩] 1 (-10)).2.2 ⟨1, "Rice", 5, 2⟩
    (by decide) (by decide)

/-- Claim C6: whenever `insertProduct`, `deleteProduct`, `restockProduct` or
`sellProduct` returns failure, the stored mapping is unchanged. -/
theorem failed_ops_preserve_inventory (inv : Inventory) (p : Product) (id amount : Int) :
    ((inv.insertProduct p).1 = false → (inv.insertProduct p).2 = inv)
    ∧ ((inv.deleteProduct id).1 = false → (inv.deleteProduct id).2 = inv)
    ∧ ((inv.restockProduct id amount).1 = false → (inv.restockProduct id amount).2 = inv)
    ∧ ((inv.sellProduct id amount).ok = false → (inv.sellProduct id amount).inv = inv) := by
  refine ⟨?_, ?_, ?_, ?_⟩
  · simp only [Inventory.insertProduct]
    split_ifs <;> intro h
    · rfl
    · rfl
    · simp at h
  · simp only [Inventory.deleteProduct]
    split_ifs <;> intro h
    · simp at h
    · rfl
  · simp only [Inventory.restockProduct]
    cases findById id inv with
    | none => intro h; rfl
    | some prod =>
        by_cases h1 : prod.quantity + amount > 100
        · simp only [if_pos h1]
          intro h
          trivial
        · simp only [if_neg h1]
          intro h
          simp at h
  · simp only [Inventory.sellProduct]
    cases findById id inv with
    | none => intro h; rfl
    | some prod =>
        by_cases h1 : prod.quantity < amount
        · simp only [if_pos h1]
          intro h
          trivial
        · simp only [if_neg h1]
          intro h
          simp at h

theorem failed_ops_preserve_inventory_witness :
    (Inventory.insertProduct [] ⟨2, "Jam", 101, 4⟩).2 = []
    ∧ (Inventory.deleteProduct [] 5).2 = []
    ∧ (Inventory.restockProduct [] 5 3).2 = []
    ∧ (Inventory.sellProduct [] 5 3).inv = [] := by
  have h := failed_ops_preserve_inventory [] ⟨2, "Jam", 101, 4⟩ 5 3
  exact ⟨h.1 (by decide), h.2.1 (by decide), h.2.2.1 (by decide), h.2.2.2 (by decide)⟩

/-- Claim C7 counterexample: when `p.id` is already present, the insert fails
but the following delete removes the pre-existing product, so insert-then-delete
does not restore the prior inventory. -/
theorem insert_delete_not_roundtrip :
    (Inventory.deleteProduct
        (Inventory.insertProduct [⟨1, "Milk", 50, 3⟩] ⟨1, "Water", 10, 1⟩).2 1).2
      ≠ [⟨1, "Milk", 50, 3⟩] := by decide

/-- Claim C7 (amended): provided `p.id` is not already present, `insertProduct p`
followed immediately by `deleteProduct p.id` restores the prior inventory. -/
theorem insert_delete_roundtrip (inv : Inventory) (p : Product)
    (h : containsId inv p.id = false) :
    ((inv.insertProduct p).2.deleteProduct p.id).2 = inv := by
  simp only [Inventory.insertProduct]
  split_ifs with h1 h2
  · rw [h] at h1
    cases h1
  · simp [Inventory.deleteProduct, h]
  · have hc : containsId (insertSorted p inv) p.id = true := by
      simp [containsId, findById_insertSorted_self]
    simp only [Inventory.deleteProduct, hc, if_true]
    exact eraseById_insertSorted h

theorem insert_delete_roundtrip_witness :
    containsId [⟨2, "Bread", 5, 1⟩] 1 = false
    ∧ ((Inventory.insertProduct [⟨2, "Bread", 5, 1⟩] ⟨1, "Milk", 50, 3⟩).2.deleteProduct 1).2
        = [⟨2, "Bread", 5, 1⟩] :=
  ⟨by decide, insert_delete_roundtrip [⟨2, "Bread", 5, 1⟩] ⟨1, "Milk", 50, 3⟩ (by decide)⟩

/-- Claim C3 counterexample: selling amount 0 from a stored quantity of 100
succeeds and emits the FULL notification, so the FULL branch is not unreachable
for arbitrary amounts. -/
theorem sellProduct_full_note_emitted :
    (Inventory.sellProduct [⟨1, "Milk", 100, 3⟩] 1 0).ok = true
    ∧ (Inventory.sellProduct [⟨1, "Milk", 100, 3⟩] 1 0).note = some StockNote.full := by
  decide

/-- Claim C3 (amended): for every inventory whose stored quantities are at most
100 and every positive sell amount, the FULL notification is never emitted by a
sale, because the post-sale quantity is strictly below 100. -/
theorem sellProduct_no_full_note (inv : Inventory) (id amount : Int)
    (hinv : ∀ p ∈ inv, p.quantity ≤ 100) (hamt : 0 < amount) :
    (inv.sellProduct id amount).note ≠ some StockNote.full := by
  simp only [Inventory.sellProduct]
  cases hf : findById id inv with
  | none => simp
  | some prod =>
      by_cases h1 : prod.quantity < amount
      · simp [if_pos h1]
      · have hq := hinv prod (mem_of_findById hf).1
        simp only [if_neg h1]
        have h100 : ¬ prod.quantity - amount = 100 := by omega
        split_ifs <;> simp

theorem sellProduct_no_full_note_witness :
    (∀ p ∈ ([⟨1, "Milk", 100, 3⟩] : Inventory), p.quantity ≤ 100)
    ∧ (0 : Int) < 5
    ∧ (Inventory.sellProduct [⟨1, "Milk", 100, 3⟩] 1 5).note ≠ some StockNote.full :=
  ⟨by decide, by decide,
    sellProduct_no_full_note [⟨1, "Milk", 100, 3⟩] 1 5 (by decide) (by decide)⟩

/-- Claim C8: after any sequence of `addItem` and `clear` calls, the stored
running total equals the sum of quantity times price over the items currently in
the list (exact rational arithmetic), and this sum equals the sum of the
per-line totals printed by the receipt export. -/
theorem receipt_total_invariant (ops : List RecOp) :
    (runRecOps ops).total
        = ((runRecOps ops).soldItems.map (fun p => (p.quantity : ℚ) * p.price)).sum
    ∧ (runRecOps ops).total = ((runRecOps ops).lineTotals).sum := by
  have h := runRecOps_total_aux ops { soldItems := [], total := 0 } (by simp)
  exact ⟨h, by simpa [Reciept.lineTotals] using h⟩

/-- Claim C9 counterexample: for a two-product inventory the export document is
not the plain sequence of a header line, a timestamp line and the two product
record lines — the source writes a second newline after the timestamp, leaving
a blank line before the records. -/
theorem inventory_export_no_blank_line_fails :
    Inventory.getFileContent [⟨1, "Milk", 50, 3⟩, ⟨2, "Bread", 3, 1⟩] "20240101_000000"
      ≠ linesJoin ("=== INVENTORY EXPORT ===" :: ("Timestamp: " ++ "20240101_000000")
          :: List.map Product.toFileString [⟨1, "Milk", 50, 3⟩, ⟨2, "Bread", 3, 1⟩]) := by
  decide

/-- Claim C9 (amended): for every inventory reachable by inventory calls, the
export document consists exactly of the newline-terminated lines: the header
line, the timestamp line, one blank line, and then one whitespace-joined
`id name quantity price` record line per stored product, the ids in strictly
ascending order. -/
theorem inventory_export_structure (ops : List InvOp) (ts : String) :
    (runOps [] ops).getFileContent ts
        = linesJoin ("=== INVENTORY EXPORT ===" :: ("Timestamp: " ++ ts) :: ""
            :: (runOps [] ops).map Product.toFileString)
    ∧ List.Pairwise (fun a b : Int => a < b) ((runOps [] ops).map Product.id) :=
  ⟨getFileContent_linesJoin (runOps [] ops) ts,
    List.pairwise_map.mpr (runOps_sorted ops)⟩
